import Mathlib

/-!
Verification of the andersle/andersleno notebooks.

The repository's one original numerical routine is the weak-acid pH solver
(`calculate_ph_approximate`, `calculate_ph_full`, `check_solution_acid`,
`check_solution_base`).  The Python code works with NumPy floats; here it is
embedded with exact real-number semantics (`ℝ`), which is the closed-form
mathematics the notebook itself presents.  `np.roots(poly)` followed by the
selection `roots[roots > 0][0]` is modelled by `cubicPosRoot`, which picks a
positive root of the monic cubic when one exists; under the hypotheses of the
theorems below that root is unique, so the model is exact.

The remaining claims concern the ESOL notebook's download cache and
correlation filter, and the fingerprint notebook's `get_environment`; those
are embedded computably (filesystem as a map, correlation entries as `ℚ`,
molecules as indexed bond tables).
-/

namespace Andersleno

/-- The monic cubic `x^3 + A*x^2 - B*x - D` shared by the acid equation
(`A = ka`, `B = kw + ka*c_ha_zero`, `D = ka*kw`) and the base equation
(`A = c_ha_zero + kb`, `B = kw`, `D = kb*kw`). -/
def cubic (A B D x : ℝ) : ℝ := x ^ 3 + A * x ^ 2 - B * x - D

/-- Model of `np.roots(poly)` followed by `roots[roots > 0][0]`: a positive
root of the monic cubic, when one exists (0 otherwise).  When the positive
root is unique — which holds for `A, B, D > 0` — this is exactly the value
the Python selection produces. -/
noncomputable def cubicPosRoot (A B D : ℝ) : ℝ :=
  @dite _ (∃ x, 0 < x ∧ cubic A B D x = 0) (Classical.dec _)
    (fun h => h.choose) (fun _ => 0)

/-- `check_solution_acid(c_ha_zero, ka, kw, x)` from the notebook: counts the
problems with an acid-equation solution `x`.  `c_OH = kw/x`, `c_A = x - c_OH`,
`c_HA = c_ha_zero - c_A`; one point each for `c_A < 0`, `c_HA < 0`, and
`np.isclose(x*c_A/c_HA, ka, atol=1e-6)` failing (NumPy's `isclose(a, b)`
is `|a - b| <= atol + rtol*|b|` with the default `rtol = 1e-5`). -/
noncomputable def check_solution_acid (c_ha_zero ka kw x : ℝ) : ℕ :=
  (if x - kw / x < 0 then 1 else 0) +
  (if c_ha_zero - (x - kw / x) < 0 then 1 else 0) +
  (if ¬(|x * (x - kw / x) / (c_ha_zero - (x - kw / x)) - ka| ≤
      1e-6 + 1e-5 * |ka|) then 1 else 0)

/-- `check_solution_base(c_ha_zero, ka, kw, x)` from the notebook: the same
checks for a base-equation solution `x`, with `c_H = kw/x`, `c_A = c_H - x`,
`c_HA = c_ha_zero - c_A`, `kb = kw/ka`, comparing `x*c_HA/c_A` to `kb`. -/
noncomputable def check_solution_base (c_ha_zero ka kw x : ℝ) : ℕ :=
  (if kw / x - x < 0 then 1 else 0) +
  (if c_ha_zero - (kw / x - x) < 0 then 1 else 0) +
  (if ¬(|x * (c_ha_zero - (kw / x - x)) / (kw / x - x) - kw / ka| ≤
      1e-6 + 1e-5 * |kw / ka|) then 1 else 0)

/-- `calculate_ph_approximate(c_ha_zero, ka)`: solves the quadratic
`x^2 + ka*x - ka*c_ha_zero = 0`, raising `ValueError` (modelled as
`Except.error`) when the discriminant is negative, and otherwise returning
`-log10` of the root `(-ka + sqrt(disc))/2`. -/
noncomputable def calculate_ph_approximate (c_ha_zero ka : ℝ) : Except String ℝ :=
  let discriminant := ka ^ 2 - 4 * 1 * (-ka * c_ha_zero)
  if discriminant < 0 then Except.error "No positive roots!"
  else Except.ok (-Real.logb 10 ((-ka + Real.sqrt discriminant) / (2 * 1)))

/-- `calculate_ph_full(c_ha_zero, ka, kw)`: solves the acid cubic
`x^3 + ka*x^2 - (kw + ka*c_ha_zero)*x - ka*kw` for `[H+]`, checks the
solution with `check_solution_acid`, and if that reports problems re-solves
the base cubic `x^3 + (c_ha_zero + kb)*x^2 - kw*x - kb*kw` (with
`kb = kw/ka`) for `[OH-]`, sets `[H+] = kw/[OH-]`, and runs
`check_solution_base` (whose value is discarded; it only warns).  Returns
`-log10([H+])`.  The Python default `kw=1e-14` is passed explicitly here. -/
noncomputable def calculate_ph_full (c_ha_zero ka kw : ℝ) : ℝ :=
  let x_h := cubicPosRoot ka (kw + ka * c_ha_zero) (ka * kw)
  let w := check_solution_acid c_ha_zero ka kw x_h
  if w > 0 then
    let kb := kw / ka
    let x_oh := cubicPosRoot (c_ha_zero + kb) kw (kb * kw)
    let x_h2 := kw / x_oh
    let _ := check_solution_base c_ha_zero ka kw x_oh;
    -Real.logb 10 x_h2
  else
    -Real.logb 10 x_h

end Andersleno

namespace Andersleno

/-- The local filesystem as seen by the ESOL notebook's `download_data_file`:
a map from paths to file contents.  `pathlib.Path(p).is_file()` is
`(files p).isSome`. -/
structure FileStore where
  files : String → Option String

/-- `open(output_file, "w").write(text)`: overwrite one path, leave every
other path untouched. -/
def FileStore.writeFile (store : FileStore) (path text : String) : FileStore :=
  ⟨fun p => if p = path then some text else store.files p⟩

/-- Observable outcome of one `download_data_file` call: the filesystem
afterwards, how many HTTP requests (`session.get`) were made, and the
returned value (`some path` or Python's `None`). -/
structure DownloadOutcome where
  store : FileStore
  httpRequests : ℕ
  result : Option String

/-- `download_data_file(url, output_file)` from the ESOL notebook.  The HTTP
layer is the `requests` library; its reply is modelled by the `response`
argument (`some text` for a truthy response with body `text`, `none` for a
falsy one).  If `output_file` already exists the function returns it at once,
making no request; otherwise it performs one `session.get(url)` and either
writes the body and returns the path, or returns `None`. -/
def download_data_file (store : FileStore) (url output_file : String)
    (response : Option String) : DownloadOutcome :=
  if (store.files output_file).isSome then
    ⟨store, 0, some output_file⟩
  else
    match response with
    | some text => ⟨store.writeFile output_file text, 1, some output_file⟩
    | none => ⟨store, 1, none⟩

/-- The ESOL notebook's correlated-descriptor filter, for a DataFrame with
`n` columns whose absolute Pearson correlation matrix is `|corr i j|`
(`corr = rdkit_descriptors.corr()`, entries modelled as exact rationals):
`upper = corr.abs().where(np.triu(..., k=1))` keeps entry `(i, j)` only for
`i < j`, and `to_drop = [column for column in upper.columns if
any(upper[column] > 0.975)]` — column `j` is dropped when some strictly
earlier column `i` has `|corr i j| > 0.975` (the `NaN` entries of `where`
compare as `False`). -/
def to_drop (n : ℕ) (corr : ℕ → ℕ → ℚ) : List ℕ :=
  (List.range n).filter fun j =>
    (List.range j).any fun i => decide ((0.975 : ℚ) < |corr i j|)

/-- The columns remaining after `rdkit_descriptors.drop(labels=to_drop,
axis=1)`: every column not in `to_drop`, in the original order. -/
def kept_columns (n : ℕ) (corr : ℕ → ℕ → ℚ) : List ℕ :=
  (List.range n).filter fun j =>
    !((List.range j).any fun i => decide ((0.975 : ℚ) < |corr i j|))

/-- An RDKit molecule as the fingerprint notebook uses it: bonds are indexed,
`GetBondWithIdx(b).GetBeginAtomIdx()/GetEndAtomIdx()` give the endpoint atom
indices, and atoms answer `GetIsAromatic()` / `IsInRing()`. -/
structure Molecule where
  bondBeginAtom : ℕ → ℕ
  bondEndAtom : ℕ → ℕ
  isAromatic : ℕ → Bool
  isInRing : ℕ → Bool

/-- The Okabe–Ito `COLOR_TUPLES` list from the fingerprint notebook. -/
def COLOR_TUPLES : List (ℕ × ℕ × ℕ) :=
  [(230, 159, 0), (86, 180, 233), (0, 158, 115), (240, 228, 66),
   (0, 114, 178), (213, 94, 0), (204, 121, 167), (204, 204, 204)]

/-- `COLOR_FRAC = [tuple(x / 255 for x in color) for color in COLOR_TUPLES]`,
with the float divisions taken exactly in `ℚ`. -/
def COLOR_FRAC : List (ℚ × ℚ × ℚ) :=
  COLOR_TUPLES.map fun c => ((c.1 : ℚ) / 255, (c.2.1 : ℚ) / 255, (c.2.2 : ℚ) / 255)

/-- The `COLOR_MAP` dict from the fingerprint notebook (any key outside the
five present ones is junk-valued; the notebook never looks one up). -/
def COLOR_MAP (key : String) : ℚ × ℚ × ℚ :=
  if key = "Center atom" then COLOR_FRAC.getD 1 (0, 0, 0)
  else if key = "Atom in a ring" then COLOR_FRAC.getD 6 (0, 0, 0)
  else if key = "Aromatic atom" then COLOR_FRAC.getD 3 (0, 0, 0)
  else if key = "Other atoms" then COLOR_FRAC.getD 7 (0, 0, 0)
  else if key = "Bonds" then COLOR_FRAC.getD 7 (0, 0, 0)
  else (0, 0, 0)

/-- Python `set.add`: insert an element unless already present (the list
stands for the set; membership is what matters). -/
def setAdd (s : List ℕ) (x : ℕ) : List ℕ :=
  if x ∈ s then s else s ++ [x]

/-- The `for bond in env` loop of `get_environment`: starting from
`atoms = {center}` and `bonds = {}`, add both endpoint atoms of each bond in
`env` to `atoms` and the bond itself to `bonds`. -/
def collectEnv (m : Molecule) (env : List ℕ) (atoms bonds : List ℕ) :
    List ℕ × List ℕ :=
  match env with
  | [] => (atoms, bonds)
  | bond :: rest =>
      collectEnv m rest
        (setAdd (setAdd atoms (m.bondBeginAtom bond)) (m.bondEndAtom bond))
        (setAdd bonds bond)

/-- `get_atom_colors(molecule, atoms, centers)`: a dict giving each atom of
`atoms` the center color if it is in `centers`, else the aromatic, ring or
other color, modelled as an association list keyed by exactly `atoms`. -/
def get_atom_colors (m : Molecule) (atoms : List ℕ) (centers : List ℕ) :
    List (ℕ × (ℚ × ℚ × ℚ)) :=
  atoms.map fun atom =>
    (atom,
      if atom ∈ centers then COLOR_MAP "Center atom"
      else if m.isAromatic atom then COLOR_MAP "Aromatic atom"
      else if m.isInRing atom then COLOR_MAP "Atom in a ring"
      else COLOR_MAP "Other atoms")

/-- `get_bond_colors(bonds)`: the dict `{bond: COLOR_MAP["Bonds"] for bond in
bonds}`. -/
def get_bond_colors (bonds : List ℕ) : List (ℕ × (ℚ × ℚ × ℚ)) :=
  bonds.map fun bond => (bond, COLOR_MAP "Bonds")

/-- `get_environment(molecule, center, radius)` from the fingerprint
notebook.  `env` stands for the bond-index list returned by RDKit's
`Chem.FindAtomEnvironmentOfRadiusN(molecule, radius, center)` (library code,
hence a parameter).  The function gathers the environment's atoms and bonds
and colors them. -/
def get_environment (m : Molecule) (center radius : ℕ) (env : List ℕ) :
    List ℕ × List ℕ × List (ℕ × (ℚ × ℚ × ℚ)) × List (ℕ × (ℚ × ℚ × ℚ)) :=
  let ab := collectEnv m env [center] []
  (ab.1, ab.2, get_atom_colors m ab.1 [center], get_bond_colors ab.2)

end Andersleno

namespace Andersleno

/-- For `A, B, D > 0` the monic cubic `x^3 + A*x^2 - B*x - D` has a positive
real root (intermediate value theorem between `0` and `1 + A + B + D`). -/
theorem cubic_exists_pos_root {A B D : ℝ} (hA : 0 < A) (hB : 0 < B) (hD : 0 < D) :
    ∃ x, 0 < x ∧ cubic A B D x = 0 := by
  set M : ℝ := 1 + A + B + D with hM
  have hM1 : 1 ≤ M := by nlinarith
  have hle : (0 : ℝ) ≤ M := by linarith
  have hcont : ContinuousOn (cubic A B D) (Set.Icc 0 M) := by
    unfold cubic; fun_prop
  have h0 : cubic A B D 0 < 0 := by
    simp only [cubic]; nlinarith
  have hMM : M ≤ M ^ 2 := by nlinarith
  have hMpos : 0 < cubic A B D M := by
    have e1 : M ^ 3 = M ^ 2 * (1 + A + B + D) := by rw [← hM]; ring
    have h2 : 0 ≤ B * (M ^ 2 - M) := by nlinarith
    have h3 : 0 ≤ D * (M ^ 2 - 1) := by nlinarith
    simp only [cubic]
    nlinarith [sq_nonneg M, mul_pos hA (mul_pos (by nlinarith : (0:ℝ) < M) (by nlinarith : (0:ℝ) < M))]
  have hmem : (0 : ℝ) ∈ Set.Ioo (cubic A B D 0) (cubic A B D M) := ⟨h0, hMpos⟩
  obtain ⟨x, hx, hfx⟩ := intermediate_value_Ioo hle hcont hmem
  exact ⟨x, hx.1, hfx⟩

/-- For `A, B, D > 0` the positive root of the monic cubic is unique
(Descartes: one sign change in `+ + - -`). -/
theorem cubic_pos_root_unique {A B D : ℝ} (hA : 0 < A) (hB : 0 < B) (hD : 0 < D)
    {x y : ℝ} (hx : 0 < x) (hy : 0 < y)
    (hfx : cubic A B D x = 0) (hfy : cubic A B D y = 0) : x = y := by
  have hx3 : x ^ 3 + A * x ^ 2 = B * x + D := by
    simp only [cubic] at hfx; linarith
  have hy3 : y ^ 3 + A * y ^ 2 = B * y + D := by
    simp only [cubic] at hfy; linarith
  have key : (x - y) * (B * x * y * (x + y + A) +
      D * (x ^ 2 + x * y + y ^ 2 + A * x + A * y)) =
      (x ^ 3 + A * x ^ 2) * (B * y + D) - (y ^ 3 + A * y ^ 2) * (B * x + D) := by
    ring
  have hzero : (x - y) * (B * x * y * (x + y + A) +
      D * (x ^ 2 + x * y + y ^ 2 + A * x + A * y)) = 0 := by
    rw [key, hx3, hy3]; ring
  have hKpos : 0 < B * x * y * (x + y + A) +
      D * (x ^ 2 + x * y + y ^ 2 + A * x + A * y) := by
    have t1 : 0 < B * x * y * (x + y + A) :=
      mul_pos (mul_pos (mul_pos hB hx) hy) (by linarith)
    have t2 : 0 < D * (x ^ 2 + x * y + y ^ 2 + A * x + A * y) := by
      have : 0 < x ^ 2 + x * y + y ^ 2 + A * x + A * y := by positivity
      exact mul_pos hD this
    linarith
  rcases mul_eq_zero.mp hzero with h | h
  · linarith
  · exact absurd h (ne_of_gt hKpos)

/-- Under `A, B, D > 0`, `cubicPosRoot A B D` is a positive root of the
cubic. -/
theorem cubicPosRoot_spec {A B D : ℝ} (hA : 0 < A) (hB : 0 < B) (hD : 0 < D) :
    0 < cubicPosRoot A B D ∧ cubic A B D (cubicPosRoot A B D) = 0 := by
  have hex := cubic_exists_pos_root hA hB hD
  rw [cubicPosRoot, dif_pos hex]
  exact hex.choose_spec

/-- Under `A, B, D > 0`, `cubicPosRoot A B D` equals any positive root of the
cubic. -/
theorem cubicPosRoot_eq {A B D : ℝ} (hA : 0 < A) (hB : 0 < B) (hD : 0 < D)
    {x : ℝ} (hx : 0 < x) (hfx : cubic A B D x = 0) :
    cubicPosRoot A B D = x := by
  obtain ⟨hr, hroot⟩ := cubicPosRoot_spec hA hB hD
  exact cubic_pos_root_unique hA hB hD hr hx hroot hfx

end Andersleno

namespace Andersleno

/-- C4: `calculate_ph_approximate` solves the quadratic
`x^2 + ka*x - ka*c_ha_zero = 0`: whenever the discriminant
`ka^2 + 4*ka*c_ha_zero` is nonnegative it returns `-log10` of the root
`x = (-ka + sqrt(ka^2 + 4*ka*c_ha_zero))/2` (which is indeed a root of the
quadratic), and it raises `ValueError` exactly when that discriminant is
negative. -/
theorem calculate_ph_approximate_spec (c_ha_zero ka : ℝ) :
    (calculate_ph_approximate c_ha_zero ka = Except.error "No positive roots!"
      ↔ ka ^ 2 + 4 * ka * c_ha_zero < 0) ∧
    (0 ≤ ka ^ 2 + 4 * ka * c_ha_zero →
      ((-ka + Real.sqrt (ka ^ 2 + 4 * ka * c_ha_zero)) / 2) ^ 2 +
          ka * ((-ka + Real.sqrt (ka ^ 2 + 4 * ka * c_ha_zero)) / 2) -
          ka * c_ha_zero = 0 ∧
      calculate_ph_approximate c_ha_zero ka =
        Except.ok (-Real.logb 10
          ((-ka + Real.sqrt (ka ^ 2 + 4 * ka * c_ha_zero)) / 2))) := by
  have hd : ka ^ 2 - 4 * 1 * (-ka * c_ha_zero) = ka ^ 2 + 4 * ka * c_ha_zero := by
    ring
  constructor
  · by_cases h : ka ^ 2 + 4 * ka * c_ha_zero < 0
    · simp only [calculate_ph_approximate, hd, if_pos h]
      simp [h]
    · simp only [calculate_ph_approximate, hd, if_neg h]
      simp [h]
  · intro h
    have hs : Real.sqrt (ka ^ 2 + 4 * ka * c_ha_zero) ^ 2 =
        ka ^ 2 + 4 * ka * c_ha_zero := Real.sq_sqrt h
    constructor
    · nlinarith [hs]
    · simp only [calculate_ph_approximate, hd, if_neg (not_lt.mpr h)]
      norm_num

/-- Witness for C4: at `c_ha_zero = 2`, `ka = 1` the discriminant is `9 ≥ 0`
and the function returns `-log10` of the stated root. -/
theorem calculate_ph_approximate_spec_witness :
    calculate_ph_approximate 2 1 =
      Except.ok (-Real.logb 10
        ((-1 + Real.sqrt ((1:ℝ) ^ 2 + 4 * 1 * 2)) / 2)) :=
  ((calculate_ph_approximate_spec 2 1).2 (by norm_num)).2

/-- C7: for `ka ≥ 0` and `c_ha_zero ≥ 0` the discriminant
`ka^2 + 4*ka*c_ha_zero` is nonnegative, so the `ValueError` branch of
`calculate_ph_approximate` is unreachable and the function returns a value. -/
theorem calculate_ph_approximate_total (c_ha_zero ka : ℝ)
    (hc : 0 ≤ c_ha_zero) (hka : 0 ≤ ka) :
    0 ≤ ka ^ 2 + 4 * ka * c_ha_zero ∧
    ∃ v, calculate_ph_approximate c_ha_zero ka = Except.ok v := by
  have hd : 0 ≤ ka ^ 2 + 4 * ka * c_ha_zero := by
    nlinarith [sq_nonneg ka, mul_nonneg hka hc]
  have hd' : ka ^ 2 - 4 * 1 * (-ka * c_ha_zero) = ka ^ 2 + 4 * ka * c_ha_zero := by
    ring
  refine ⟨hd, ?_⟩
  refine ⟨-Real.logb 10 ((-ka + Real.sqrt (ka ^ 2 - 4 * 1 * (-ka * c_ha_zero))) / (2 * 1)), ?_⟩
  simp only [calculate_ph_approximate]
  rw [if_neg]
  rw [hd']
  exact not_lt.mpr hd

/-- Witness for C7: at `c_ha_zero = 2`, `ka = 1` both hypotheses hold and the
function returns an `Except.ok` value. -/
theorem calculate_ph_approximate_total_witness :
    0 ≤ (1:ℝ) ^ 2 + 4 * 1 * 2 ∧
    ∃ v, calculate_ph_approximate 2 1 = Except.ok v :=
  calculate_ph_approximate_total 2 1 (by norm_num) (by norm_num)

/-- C3: for `c_ha_zero, ka, kw > 0` the acid cubic
`x^3 + ka*x^2 - (kw + ka*c_ha_zero)*x - ka*kw` has exactly one positive real
root, and the base cubic `x^3 + (c_ha_zero + kb)*x^2 - kw*x - kb*kw`
(`kb = kw/ka`) likewise has exactly one positive real root; hence the
selections `roots_h[roots_h > 0][0]` and `roots_oh[roots_oh > 0][0]` in
`calculate_ph_full` never index an empty selection, and the selected root is
the physically valid (positive) one. -/
theorem ph_cubics_unique_pos_roots (c_ha_zero ka kw : ℝ)
    (hc : 0 < c_ha_zero) (hka : 0 < ka) (hkw : 0 < kw) :
    (∃! x, 0 < x ∧ cubic ka (kw + ka * c_ha_zero) (ka * kw) x = 0) ∧
    (∃! y, 0 < y ∧ cubic (c_ha_zero + kw / ka) kw ((kw / ka) * kw) y = 0) := by
  have hB : 0 < kw + ka * c_ha_zero := by positivity
  have hD : 0 < ka * kw := by positivity
  have hA2 : 0 < c_ha_zero + kw / ka := by positivity
  have hD2 : 0 < (kw / ka) * kw := by positivity
  constructor
  · obtain ⟨x, hx⟩ := cubic_exists_pos_root hka hB hD
    exact ⟨x, hx, fun y hy => cubic_pos_root_unique hka hB hD hy.1 hx.1 hy.2 hx.2⟩
  · obtain ⟨y, hy⟩ := cubic_exists_pos_root hA2 hkw hD2
    exact ⟨y, hy, fun z hz => cubic_pos_root_unique hA2 hkw hD2 hz.1 hy.1 hz.2 hy.2⟩

/-- Witness for C3: at `c_ha_zero = ka = kw = 1` both cubics have exactly one
positive root. -/
theorem ph_cubics_unique_pos_roots_witness :
    (∃! x, 0 < x ∧ cubic 1 (1 + 1 * 1) (1 * 1) x = 0) ∧
    (∃! y, 0 < y ∧ cubic (1 + 1 / 1) 1 ((1 / 1) * 1) y = 0) :=
  ph_cubics_unique_pos_roots 1 1 1 (by norm_num) (by norm_num) (by norm_num)

end Andersleno

namespace Andersleno

/-- C1: for `c_ha_zero, ka, kw > 0`, `calculate_ph_full` sets up the cubic
`x^3 + ka*x^2 - (kw + ka*c_ha_zero)*x - ka*kw`, selects a positive root of it
(the selected value `cubicPosRoot ka (kw + ka*c_ha_zero) (ka*kw)` is a
positive root), and when `check_solution_acid` reports no problems for that
root (returns 0) the function returns `-log10` of it.  Stated for an
arbitrary positive root `x_h`: by uniqueness it is the selected one. -/
theorem calculate_ph_full_acid_branch (c_ha_zero ka kw x_h : ℝ)
    (hc : 0 < c_ha_zero) (hka : 0 < ka) (hkw : 0 < kw)
    (hx : 0 < x_h) (hroot : cubic ka (kw + ka * c_ha_zero) (ka * kw) x_h = 0)
    (hchk : check_solution_acid c_ha_zero ka kw x_h = 0) :
    0 < cubicPosRoot ka (kw + ka * c_ha_zero) (ka * kw) ∧
    cubic ka (kw + ka * c_ha_zero) (ka * kw)
      (cubicPosRoot ka (kw + ka * c_ha_zero) (ka * kw)) = 0 ∧
    calculate_ph_full c_ha_zero ka kw = -Real.logb 10 x_h := by
  have hB : 0 < kw + ka * c_ha_zero := by positivity
  have hD : 0 < ka * kw := by positivity
  obtain ⟨hr, hrt⟩ := cubicPosRoot_spec hka hB hD
  have heq : cubicPosRoot ka (kw + ka * c_ha_zero) (ka * kw) = x_h :=
    cubicPosRoot_eq hka hB hD hx hroot
  refine ⟨hr, hrt, ?_⟩
  simp only [calculate_ph_full, heq, hchk]
  norm_num

/-- Witness for C1: at `c_ha_zero = 3`, `ka = 1`, `kw = 2` the acid cubic has
the exact root `x_h = 2`, the check passes, and the pH is `-log10 2`. -/
theorem calculate_ph_full_acid_branch_witness :
    0 < cubicPosRoot 1 (2 + 1 * 3) (1 * 2) ∧
    cubic 1 (2 + 1 * 3) (1 * 2) (cubicPosRoot 1 (2 + 1 * 3) (1 * 2)) = 0 ∧
    calculate_ph_full 3 1 2 = -Real.logb 10 2 :=
  calculate_ph_full_acid_branch 3 1 2 2 (by norm_num) (by norm_num) (by norm_num)
    (by norm_num) (by norm_num [cubic]) (by norm_num [check_solution_acid])

/-- C5: whenever `calculate_ph_full` would return through the acid branch
(`check_solution_acid` returns 0) with a positive root `x` of the acid cubic,
the implied concentrations `c_OH = kw/x`, `c_A = x - c_OH` and
`c_HA = c_ha_zero - c_A` are all nonnegative and the equilibrium relation
holds: `x*c_A/c_HA` equals `ka` within absolute tolerance `1e-6` (in exact
arithmetic it equals `ka` exactly). -/
theorem acid_branch_consistency (c_ha_zero ka kw x : ℝ)
    (hc : 0 < c_ha_zero) (hka : 0 < ka) (hkw : 0 < kw) (hx : 0 < x)
    (hroot : cubic ka (kw + ka * c_ha_zero) (ka * kw) x = 0)
    (hchk : check_solution_acid c_ha_zero ka kw x = 0) :
    0 ≤ kw / x ∧ 0 ≤ x - kw / x ∧ 0 ≤ c_ha_zero - (x - kw / x) ∧
    |x * (x - kw / x) / (c_ha_zero - (x - kw / x)) - ka| ≤ 1e-6 := by
  simp only [check_solution_acid, Nat.add_eq_zero, ite_eq_right_iff,
    one_ne_zero, imp_false, not_not] at hchk
  obtain ⟨⟨hA, hHA⟩, _⟩ := hchk
  have hxne : x ≠ 0 := ne_of_gt hx
  have hroot' : x ^ 3 + ka * x ^ 2 - (kw + ka * c_ha_zero) * x - ka * kw = 0 := by
    simpa [cubic] using hroot
  have key : x ^ 2 - kw = ka * (c_ha_zero - (x - kw / x)) := by
    field_simp
    linear_combination hroot'
  have hca : x * (x - kw / x) = x ^ 2 - kw := by
    field_simp
    ring
  have hHApos : 0 < c_ha_zero - (x - kw / x) := by
    rcases lt_or_eq_of_le (not_lt.mp hHA) with h | h
    · exact h
    · exfalso
      have h0 : x ^ 2 - kw = 0 := by rw [key, ← h]; ring
      have hA0 : x - kw / x = 0 := by
        field_simp at h0 ⊢
        linarith
      linarith
  have hquot : x * (x - kw / x) / (c_ha_zero - (x - kw / x)) = ka := by
    rw [hca, key, mul_div_assoc, div_self (ne_of_gt hHApos), mul_one]
  refine ⟨by positivity, not_lt.mp hA, not_lt.mp hHA, ?_⟩
  rw [hquot]
  simp
  norm_num

/-- Witness for C5: at `c_ha_zero = 3`, `ka = 1`, `kw = 2`, `x = 2` the
concentrations are `c_OH = 1`, `c_A = 1`, `c_HA = 2`, all nonnegative, and
`x*c_A/c_HA = 1 = ka`. -/
theorem acid_branch_consistency_witness :
    0 ≤ (2:ℝ) / 2 ∧ 0 ≤ (2:ℝ) - 2 / 2 ∧ 0 ≤ (3:ℝ) - (2 - 2 / 2) ∧
    |(2:ℝ) * (2 - 2 / 2) / (3 - (2 - 2 / 2)) - 1| ≤ 1e-6 :=
  acid_branch_consistency 3 1 2 2 (by norm_num) (by norm_num) (by norm_num)
    (by norm_num) (by norm_num [cubic]) (by norm_num [check_solution_acid])

/-- C2: whenever `check_solution_acid` reports at least one problem (returns
`w > 0`) for the acid-equation root, `calculate_ph_full` falls back to the
base formulation: it solves `x^3 + (c_ha_zero + kb)*x^2 - kw*x - kb*kw` with
`kb = kw/ka` for `[OH-]`, takes its positive root `x_oh`, and returns
`-log10(kw/x_oh)`.  The fallback only runs `check_solution_base` for its
warnings and, being a total function in this embedding, raises no
exception.  (The hypothesis `0 < kw + ka*c_ha_zero` makes the positive roots
of both cubics unique, so `x_h` and `x_oh` are the selected roots.) -/
theorem calculate_ph_full_base_fallback (c_ha_zero ka kw x_h x_oh : ℝ)
    (hka : 0 < ka) (hkw : 0 < kw) (hB : 0 < kw + ka * c_ha_zero)
    (hxh : 0 < x_h) (hroot_h : cubic ka (kw + ka * c_ha_zero) (ka * kw) x_h = 0)
    (hchk : 0 < check_solution_acid c_ha_zero ka kw x_h)
    (hxoh : 0 < x_oh)
    (hroot_oh : cubic (c_ha_zero + kw / ka) kw ((kw / ka) * kw) x_oh = 0) :
    calculate_ph_full c_ha_zero ka kw = -Real.logb 10 (kw / x_oh) := by
  have hD : 0 < ka * kw := mul_pos hka hkw
  have heq_h : cubicPosRoot ka (kw + ka * c_ha_zero) (ka * kw) = x_h :=
    cubicPosRoot_eq hka hB hD hxh hroot_h
  have hA2 : 0 < c_ha_zero + kw / ka := by
    have h : c_ha_zero + kw / ka = (kw + ka * c_ha_zero) / ka := by
      field_simp
      ring
    rw [h]
    exact div_pos hB hka
  have hD2 : 0 < (kw / ka) * kw := mul_pos (div_pos hkw hka) hkw
  have heq_oh : cubicPosRoot (c_ha_zero + kw / ka) kw ((kw / ka) * kw) = x_oh :=
    cubicPosRoot_eq hA2 hkw hD2 hxoh hroot_oh
  simp only [calculate_ph_full, heq_h]
  rw [if_pos hchk]
  simp only [heq_oh]

/-- Witness for C2: at `c_ha_zero = -21/50`, `ka = 1`, `kw = 121/100` the
acid cubic has the exact root `x_h = 1` which fails two checks
(`c_A = c_HA = -21/100 < 0`), and the base cubic has the exact root
`x_oh = 121/100`, so the function returns `-log10(kw/x_oh)`. -/
theorem calculate_ph_full_base_fallback_witness :
    calculate_ph_full (-21/50) 1 (121/100) =
      -Real.logb 10 ((121/100) / (121/100)) :=
  calculate_ph_full_base_fallback (-21/50) 1 (121/100) 1 (121/100)
    (by norm_num) (by norm_num) (by norm_num) (by norm_num)
    (by norm_num [cubic]) (by norm_num [check_solution_acid])
    (by norm_num) (by norm_num [cubic])

/-- C6: `calculate_ph_full` and `calculate_ph_approximate` are stateless and
deterministic: two runs on the same arguments return the same value.  In this
embedding both are pure functions of `(c_ha_zero, ka, kw)` alone, matching
the source, which reads and writes no state outside its arguments (the
`warnings` module only emits messages). -/
theorem ph_solvers_deterministic (c_ha_zero ka kw c' ka' kw' : ℝ)
    (h1 : c_ha_zero = c') (h2 : ka = ka') (h3 : kw = kw') :
    calculate_ph_full c_ha_zero ka kw = calculate_ph_full c' ka' kw' ∧
    calculate_ph_approximate c_ha_zero ka = calculate_ph_approximate c' ka' := by
  subst h1
  subst h2
  subst h3
  exact ⟨rfl, rfl⟩

/-- Witness for C6: two runs at `(1, 1, 1)` agree. -/
theorem ph_solvers_deterministic_witness :
    calculate_ph_full 1 1 1 = calculate_ph_full 1 1 1 ∧
    calculate_ph_approximate 1 1 = calculate_ph_approximate 1 1 :=
  ph_solvers_deterministic 1 1 1 1 1 1 rfl rfl rfl

end Andersleno

namespace Andersleno

/-- C8: if `output_file` already names an existing file,
`download_data_file` returns it without performing any HTTP request and
without modifying any file: the outcome is the unchanged filesystem, zero
requests, and the path as return value. -/
theorem download_skips_when_file_exists (store : FileStore)
    (url output_file : String) (response : Option String)
    (h : (store.files output_file).isSome = true) :
    download_data_file store url output_file response =
      ⟨store, 0, some output_file⟩ := by
  simp only [download_data_file, h, if_pos]

/-- Witness for C8: a filesystem already holding `esol.csv` is returned
untouched, with no request made, whatever the network would have replied. -/
theorem download_skips_when_file_exists_witness :
    download_data_file ⟨fun p => if p = "esol.csv" then some "smiles" else none⟩
      "https://example.org/esol" "esol.csv" none =
      ⟨⟨fun p => if p = "esol.csv" then some "smiles" else none⟩, 0,
        some "esol.csv"⟩ :=
  download_skips_when_file_exists _ _ _ _ rfl

/-- C9: the correlated-descriptor filter drops column `j` if and only if the
absolute correlation between `j` and some column `i` that precedes it in the
DataFrame's column order (the strict upper triangle) exceeds `0.975`; every
other column is kept. -/
theorem corr_filter_drops_iff (n : ℕ) (corr : ℕ → ℕ → ℚ) (j : ℕ)
    (hj : j < n) :
    (j ∈ to_drop n corr ↔ ∃ i, i < j ∧ 0.975 < |corr i j|) ∧
    (j ∈ kept_columns n corr ↔ ¬∃ i, i < j ∧ 0.975 < |corr i j|) := by
  constructor
  · simp [to_drop, List.mem_filter, List.mem_range, hj]
  · simp [kept_columns, List.mem_filter, List.mem_range, hj]

/-- Witness for C9: with two perfectly correlated columns, column 1 is
dropped and not kept. -/
theorem corr_filter_drops_iff_witness :
    (1 ∈ to_drop 2 (fun _ _ => (1 : ℚ)) ↔ ∃ i, i < 1 ∧ (0.975 : ℚ) < |(1 : ℚ)|) ∧
    (1 ∈ kept_columns 2 (fun _ _ => (1 : ℚ)) ↔
      ¬∃ i, i < 1 ∧ (0.975 : ℚ) < |(1 : ℚ)|) :=
  corr_filter_drops_iff 2 (fun _ _ => 1) 1 (by norm_num)

/-- Mapping `Prod.fst` over a keyed-by-self association list returns the
keys. -/
theorem map_fst_pairing {α β : Type} (f : α → β) (l : List α) :
    (l.map fun a => (a, f a)).map Prod.fst = l := by
  induction l with
  | nil => rfl
  | cons a t ih => simp only [List.map_cons, ih]

/-- Adding to a set keeps existing members. -/
theorem mem_setAdd_of_mem {s : List ℕ} {x : ℕ} (y : ℕ) (h : x ∈ s) :
    x ∈ setAdd s y := by
  by_cases hc : y ∈ s <;> simp [setAdd, hc, h]

/-- The added element is a member. -/
theorem mem_setAdd_self (s : List ℕ) (x : ℕ) : x ∈ setAdd s x := by
  by_cases hc : x ∈ s <;> simp [setAdd, hc]

/-- Atoms present before the environment loop are still present after it. -/
theorem collectEnv_atoms_mono (m : Molecule) (env : List ℕ)
    (atoms bonds : List ℕ) {x : ℕ} (hx : x ∈ atoms) :
    x ∈ (collectEnv m env atoms bonds).1 := by
  induction env generalizing atoms bonds with
  | nil => simpa [collectEnv]
  | cons bond rest ih =>
      simp only [collectEnv]
      exact ih _ _ (mem_setAdd_of_mem _ (mem_setAdd_of_mem _ hx))

/-- If every bond gathered so far has its endpoints among the gathered atoms,
the same holds after the environment loop. -/
theorem collectEnv_bonds_closed (m : Molecule) (env : List ℕ)
    (atoms bonds : List ℕ)
    (hinv : ∀ b ∈ bonds, m.bondBeginAtom b ∈ atoms ∧ m.bondEndAtom b ∈ atoms) :
    ∀ b ∈ (collectEnv m env atoms bonds).2,
      m.bondBeginAtom b ∈ (collectEnv m env atoms bonds).1 ∧
      m.bondEndAtom b ∈ (collectEnv m env atoms bonds).1 := by
  induction env generalizing atoms bonds with
  | nil => simpa [collectEnv]
  | cons bond rest ih =>
      simp only [collectEnv]
      apply ih
      intro b hb
      have hmem : b ∈ bonds ∨ b = bond := by
        by_cases hc : bond ∈ bonds
        · exact Or.inl (by simpa [setAdd, hc] using hb)
        · simpa [setAdd, hc] using hb
      rcases hmem with h | h
      · obtain ⟨h1, h2⟩ := hinv b h
        exact ⟨mem_setAdd_of_mem _ (mem_setAdd_of_mem _ h1),
          mem_setAdd_of_mem _ (mem_setAdd_of_mem _ h2)⟩
      · subst h
        exact ⟨mem_setAdd_of_mem _ (mem_setAdd_self _ _), mem_setAdd_self _ _⟩

/-- C10: for every molecule, center, radius (and environment bond list
returned by RDKit), `get_environment` returns an atoms list containing the
center atom, a bonds list whose every bond has both endpoint atoms in the
atoms list, and color dictionaries keyed exactly by the returned atoms and
bonds respectively. -/
theorem get_environment_invariants (m : Molecule) (center radius : ℕ)
    (env : List ℕ) :
    center ∈ (get_environment m center radius env).1 ∧
    (∀ b ∈ (get_environment m center radius env).2.1,
      m.bondBeginAtom b ∈ (get_environment m center radius env).1 ∧
      m.bondEndAtom b ∈ (get_environment m center radius env).1) ∧
    (get_environment m center radius env).2.2.1.map Prod.fst =
      (get_environment m center radius env).1 ∧
    (get_environment m center radius env).2.2.2.map Prod.fst =
      (get_environment m center radius env).2.1 := by
  simp only [get_environment]
  refine ⟨?_, ?_, ?_, ?_⟩
  · exact collectEnv_atoms_mono m env [center] [] (by simp)
  · exact collectEnv_bonds_closed m env [center] [] (by simp)
  · exact map_fst_pairing _ _
  · exact map_fst_pairing _ _

end Andersleno
